import Mathlib

/-!
Verification of the report categorization and windowing engine of the
custom-jira-mcp server (index.js and its sibling server variants).

Modelling conventions for the shallow embedding:
* JavaScript `Date` values are modelled as `Int` timestamps in milliseconds
  since the Unix epoch; `Date` comparison operators compare these numbers.
* Optional/nullable fields are `Option _`; JavaScript truthiness of a
  `Date`-or-`null` field is `Option.isSome`, truthiness of a string is
  "not the empty string".
* `new Date()` taken inside a function is passed in explicitly as a `now`
  parameter.
* `String.prototype.localeCompare` is modelled as lexicographic comparison
  of Unicode code points (`strCmp`).
* `Array.prototype.sort` is stable (ES2019); it is modelled by the stable
  insertion sort `sortCmp`.  The determinism theorem additionally treats
  any sort routine satisfying the ECMAScript contract (`IsJsSortOf`).
-/

set_option maxHeartbeats 1000000

/-- Lexicographic code-point comparison of character lists, the model of
the engine of `localeCompare`: negative, zero or positive. -/
def charListCmp : List Char → List Char → Int
  | [], [] => 0
  | [], _ :: _ => -1
  | _ :: _, [] => 1
  | c :: cs, d :: ds =>
    if c.toNat < d.toNat then -1
    else if d.toNat < c.toNat then 1
    else charListCmp cs ds

/-- Model of `a.localeCompare(b)` for the ASCII issue keys the server
compares: code-point lexicographic comparison. -/
def strCmp (a b : String) : Int :=
  charListCmp a.data b.data

theorem charListCmp_refl : ∀ l : List Char, charListCmp l l = 0 := by
  intro l
  induction l with
  | nil => rfl
  | cons c cs ih => simp [charListCmp, ih]

theorem strCmp_refl (s : String) : strCmp s s = 0 :=
  charListCmp_refl s.data

theorem charListCmp_antisymm :
    ∀ l₁ l₂ : List Char, charListCmp l₁ l₂ ≤ 0 → charListCmp l₂ l₁ ≤ 0 →
      charListCmp l₁ l₂ = 0 := by
  intro l₁
  induction l₁ with
  | nil =>
    intro l₂ h₁ h₂
    cases l₂ with
    | nil => rfl
    | cons d ds => simp [charListCmp] at h₂
  | cons c cs ih =>
    intro l₂ h₁ h₂
    cases l₂ with
    | nil => simp [charListCmp] at h₁
    | cons d ds =>
      by_cases hcd : c.toNat < d.toNat
      · have hdc : ¬ d.toNat < c.toNat := by omega
        simp [charListCmp, hcd, hdc] at h₂
      · by_cases hdc : d.toNat < c.toNat
        · simp [charListCmp, hcd, hdc] at h₁
        · simp only [charListCmp, if_neg hcd, if_neg hdc] at h₁ h₂ ⊢
          exact ih ds h₁ h₂

theorem strCmp_antisymm (a b : String) (h₁ : strCmp a b ≤ 0)
    (h₂ : strCmp b a ≤ 0) : strCmp a b = 0 :=
  charListCmp_antisymm a.data b.data h₁ h₂

/-- Insert an element into a list that is already sorted for the JavaScript
comparator `cmp`, keeping it before the first element it does not strictly
exceed; this is the stable placement rule of `Array.prototype.sort`. -/
def insertCmp (cmp : α → α → Int) (x : α) : List α → List α
  | [] => [x]
  | y :: ys => if cmp x y ≤ 0 then x :: y :: ys else y :: insertCmp cmp x ys

/-- Stable comparison sort, the model of `Array.prototype.sort(cmp)`. -/
def sortCmp (cmp : α → α → Int) : List α → List α
  | [] => []
  | x :: xs => insertCmp cmp x (sortCmp cmp xs)

theorem mem_insertCmp (cmp : α → α → Int) (x a : α) :
    ∀ l : List α, a ∈ insertCmp cmp x l ↔ a = x ∨ a ∈ l := by
  intro l
  induction l with
  | nil => simp [insertCmp]
  | cons y ys ih =>
    by_cases h : cmp x y ≤ 0
    · simp [insertCmp, h]
    · simp only [insertCmp, if_neg h, List.mem_cons, ih]
      tauto

theorem mem_sortCmp (cmp : α → α → Int) (a : α) :
    ∀ l : List α, a ∈ sortCmp cmp l ↔ a ∈ l := by
  intro l
  induction l with
  | nil => simp [sortCmp]
  | cons x xs ih => simp [sortCmp, mem_insertCmp, ih]

theorem pairwise_insertCmp (cmp : α → α → Int) (x : α) :
    ∀ l : List α,
      List.Pairwise (fun a b => cmp a b ≤ 0) l →
      (∀ y ∈ l, cmp x y ≤ 0 ∨ cmp y x ≤ 0) →
      (∀ y ∈ l, ∀ z ∈ l, cmp x y ≤ 0 → cmp y z ≤ 0 → cmp x z ≤ 0) →
      List.Pairwise (fun a b => cmp a b ≤ 0) (insertCmp cmp x l) := by
  intro l
  induction l with
  | nil =>
    intro _ _ _
    simp [insertCmp]
  | cons y ys ih =>
    intro hp htot htr
    by_cases h : cmp x y ≤ 0
    · simp only [insertCmp, if_pos h]
      refine List.Pairwise.cons ?_ hp
      intro z hz
      rcases List.mem_cons.mp hz with hzy | hzys
      · exact hzy ▸ h
      · exact htr y (List.mem_cons_self y ys) z (List.mem_cons_of_mem y hzys) h
          (List.rel_of_pairwise_cons hp hzys)
    · simp only [insertCmp, if_neg h]
      refine List.Pairwise.cons ?_ ?_
      · intro z hz
        rcases (mem_insertCmp cmp x z ys).mp hz with hzx | hzys
        · subst hzx
          rcases htot y (List.mem_cons_self y ys) with hxy | hyx
          · exact absurd hxy h
          · exact hyx
        · exact List.rel_of_pairwise_cons hp hzys
      · refine ih (List.Pairwise.of_cons hp) ?_ ?_
        · intro z hz
          exact htot z (List.mem_cons_of_mem y hz)
        · intro z hz w hw
          exact htr z (List.mem_cons_of_mem y hz) w (List.mem_cons_of_mem y hw)

theorem pairwise_sortCmp (cmp : α → α → Int) :
    ∀ l : List α,
      (∀ a ∈ l, ∀ b ∈ l, cmp a b ≤ 0 ∨ cmp b a ≤ 0) →
      (∀ a ∈ l, ∀ b ∈ l, ∀ c ∈ l, cmp a b ≤ 0 → cmp b c ≤ 0 → cmp a c ≤ 0) →
      List.Pairwise (fun a b => cmp a b ≤ 0) (sortCmp cmp l) := by
  intro l
  induction l with
  | nil =>
    intro _ _
    simp [sortCmp]
  | cons x xs ih =>
    intro htot htr
    simp only [sortCmp]
    refine pairwise_insertCmp cmp x (sortCmp cmp xs) ?_ ?_ ?_
    · refine ih ?_ ?_
      · intro a ha b hb
        exact htot a (List.mem_cons_of_mem x ha) b (List.mem_cons_of_mem x hb)
      · intro a ha b hb c hc
        exact htr a (List.mem_cons_of_mem x ha) b (List.mem_cons_of_mem x hb)
          c (List.mem_cons_of_mem x hc)
    · intro y hy
      exact htot x (List.mem_cons_self x xs) y
        (List.mem_cons_of_mem x ((mem_sortCmp cmp y xs).mp hy))
    · intro y hy z hz
      exact htr x (List.mem_cons_self x xs) y
        (List.mem_cons_of_mem x ((mem_sortCmp cmp y xs).mp hy))
        z (List.mem_cons_of_mem x ((mem_sortCmp cmp z xs).mp hz))

theorem filter_insertCmp_pos (cmp : α → α → Int) (P : α → Bool) (x : α)
    (hx : P x = true) :
    ∀ l : List α, (∀ y ∈ l, P y = true → cmp x y ≤ 0) →
      (insertCmp cmp x l).filter P = x :: l.filter P := by
  intro l
  induction l with
  | nil => simp [insertCmp, hx]
  | cons y ys ih =>
    intro h
    by_cases hc : cmp x y ≤ 0
    · simp [insertCmp, hc, List.filter_cons, hx]
    · have hy : P y = false := by
        by_cases hPy : P y = true
        · exact absurd (h y (List.mem_cons_self y ys) hPy) hc
        · simpa using hPy
      simp only [insertCmp, if_neg hc, List.filter_cons, hy]
      simp only [Bool.false_eq_true, if_false]
      exact ih fun z hz hPz => h z (List.mem_cons_of_mem y hz) hPz

theorem filter_insertCmp_neg (cmp : α → α → Int) (P : α → Bool) (x : α)
    (hx : P x = false) :
    ∀ l : List α, (insertCmp cmp x l).filter P = l.filter P := by
  intro l
  induction l with
  | nil => simp [insertCmp, hx]
  | cons y ys ih =>
    by_cases hc : cmp x y ≤ 0
    · simp [insertCmp, hc, List.filter_cons, hx]
    · simp only [insertCmp, if_neg hc, List.filter_cons, ih]

theorem sortCmp_filter_eq (cmp : α → α → Int) (P : α → Bool) :
    ∀ l : List α,
      (∀ x ∈ l, ∀ y ∈ l, P x = true → P y = true → cmp x y = 0) →
      (sortCmp cmp l).filter P = l.filter P := by
  intro l
  induction l with
  | nil => simp [sortCmp]
  | cons x xs ih =>
    intro hP
    simp only [sortCmp]
    by_cases hx : P x = true
    · rw [filter_insertCmp_pos cmp P x hx]
      · rw [ih fun a ha b hb => hP a (List.mem_cons_of_mem x ha)
            b (List.mem_cons_of_mem x hb)]
        simp [List.filter_cons, hx]
      · intro y hy hPy
        have := hP x (List.mem_cons_self x xs) y
          (List.mem_cons_of_mem x ((mem_sortCmp cmp y xs).mp hy)) hx hPy
        omega
    · have hx' : P x = false := by simpa using hx
      rw [filter_insertCmp_neg cmp P x hx']
      rw [ih fun a ha b hb => hP a (List.mem_cons_of_mem x ha)
          b (List.mem_cons_of_mem x hb)]
      simp [List.filter_cons, hx']

/-- Normalized issue record as produced by `fetchJiraIssues` in the server:
every field the categorization engine reads, with the two dates optional. -/
structure IssueRecord where
  key : String
  summary : String
  description : String
  assignee : String
  status : String
  statusCategory : String
  issueType : String
  priority : String
  resolutionDate : Option Int
  dueDate : Option Int
deriving DecidableEq

/-- The five report buckets returned by `categorizeIssues`. -/
structure Buckets where
  accomplishments : List IssueRecord
  priorities : List IssueRecord
  risks : List IssueRecord
  milestones : List IssueRecord
  upcomingMilestones : List IssueRecord
deriving DecidableEq

/-- Source: `addDays(d, n) = new Date(d.getTime() + n * 86400000)`. -/
def addDays (d n : Int) : Int :=
  d + n * 86400000

/-- Source: `isDone(issue) = issue.statusCategory === "done"`. -/
def isDone (i : IssueRecord) : Bool :=
  i.statusCategory == "done"

/-- Source (categorizeIssues):
`isStory(issue) = issue.issueType === "Story" || issue.issueType === "Task"`. -/
def isStory (i : IssueRecord) : Bool :=
  i.issueType == "Story" || i.issueType == "Task"

/-- Source (categorizeIssues): `isMilestone` accepts Epic, Milestone or
Story issue types. -/
def isMilestone (i : IssueRecord) : Bool :=
  i.issueType == "Epic" || i.issueType == "Milestone" || i.issueType == "Story"

/-- Comparator `(a, b) => a.key.localeCompare(b.key)` used for the
accomplishments and risks buckets. -/
def cmpKey (a b : IssueRecord) : Int :=
  strCmp a.key b.key

/-- Comparator used for the priorities and milestones buckets:
`if (a.dueDate && b.dueDate) return a.dueDate - b.dueDate;
return a.key.localeCompare(b.key);`. -/
def cmpDueKey (a b : IssueRecord) : Int :=
  match a.dueDate, b.dueDate with
  | some x, some y => x - y
  | _, _ => strCmp a.key b.key

/-- Accomplishments filter of `categorizeIssues`: done, with a resolution
date inside `[startDate, now]`. -/
def accPool (issues : List IssueRecord) (startDate now : Int) : List IssueRecord :=
  issues.filter fun i =>
    isDone i &&
      (match i.resolutionDate with
       | some r => decide (startDate ≤ r) && decide (r ≤ now)
       | none => false)

/-- Priorities filter of `categorizeIssues`: not done, with a due date
that is set and at most `endDate`. -/
def prioPool (issues : List IssueRecord) (endDate : Int) : List IssueRecord :=
  issues.filter fun i =>
    !(isDone i) &&
      (match i.dueDate with
       | some dd => decide (dd ≤ endDate)
       | none => false)

/-- Risks filter of `categorizeIssues`: a Story or Task, not done, and
either priority Highest/High or no due date. -/
def riskPool (issues : List IssueRecord) : List IssueRecord :=
  issues.filter fun i =>
    isStory i && !(isDone i) &&
      (i.priority == "Highest" || i.priority == "High" || i.dueDate.isNone)

/-- Milestones filter of `categorizeIssues`: type-driven only. -/
def milePool (issues : List IssueRecord) : List IssueRecord :=
  issues.filter fun i => isMilestone i

/-- Upcoming-milestones filter of `categorizeIssues`:
`i.dueDate && i.dueDate >= now && i.dueDate <= endDate`. -/
def upcomingPred (now endDate : Int) (i : IssueRecord) : Bool :=
  match i.dueDate with
  | some dd => decide (now ≤ dd) && decide (dd ≤ endDate)
  | none => false

/-- The categorization pipeline of `categorizeIssues(issues, startDate,
endDate)`, parameterized by the sort routine standing for
`Array.prototype.sort`; `now` is the `new Date()` taken inside the
function. -/
def categorizeIssuesWith
    (sortImpl : (IssueRecord → IssueRecord → Int) → List IssueRecord → List IssueRecord)
    (issues : List IssueRecord) (startDate endDate now : Int) : Buckets :=
  let milestones := sortImpl cmpDueKey (milePool issues)
  { accomplishments := sortImpl cmpKey (accPool issues startDate now)
    priorities := sortImpl cmpDueKey (prioPool issues endDate)
    risks := sortImpl cmpKey (riskPool issues)
    milestones := milestones
    upcomingMilestones := milestones.filter (upcomingPred now endDate) }

/-- Source: `categorizeIssues(issues, startDate, endDate)` with the stable
built-in sort. -/
def categorizeIssues (issues : List IssueRecord) (startDate endDate now : Int) :
    Buckets :=
  categorizeIssuesWith sortCmp issues startDate endDate now

/-- Source (variant server, buildReport): `isStory` accepts only Story. -/
def isStoryV0 (i : IssueRecord) : Bool :=
  i.issueType == "Story"

/-- Source (variant server, buildReport): `isMilestone` accepts Epic or
Milestone. -/
def isMilestoneV0 (i : IssueRecord) : Bool :=
  i.issueType == "Epic" || i.issueType == "Milestone"

/-- Inclusion filter of the variant `buildReport`:
`issues.filter(i => i.description && (!isDone(i) || i.resolutionDate))`. -/
def validIssues (issues : List IssueRecord) : List IssueRecord :=
  issues.filter fun i =>
    !(i.description == "") && (!(isDone i) || i.resolutionDate.isSome)

/-- Comparator `(a, b) => a.dueDate - b.dueDate` of the variant
`buildReport` priorities bucket; a `null` date coerces to 0 in the
JavaScript subtraction. -/
def cmpDueSub (a b : IssueRecord) : Int :=
  a.dueDate.getD 0 - b.dueDate.getD 0

/-- Bucket computation of the variant server `buildReport(projectKey,
issues, period)`: any period other than biweekly means a 7-day half
window; the text rendering that follows the bucket computation is not
modelled.  `now` is the `new Date()` taken at entry. -/
def buildReport (issues : List IssueRecord) (period : String) (now : Int) :
    Buckets :=
  let windowDays : Int := if period == "biweekly" then 14 else 7
  let pastStart := addDays now (-windowDays)
  let futureEnd := addDays now windowDays
  let valid := validIssues issues
  let milestones := sortCmp cmpKey (valid.filter fun i => isMilestoneV0 i)
  { accomplishments := sortCmp cmpKey (valid.filter fun i =>
      isDone i &&
        (match i.resolutionDate with
         | some r => decide (pastStart ≤ r)
         | none => false))
    priorities := sortCmp cmpDueSub (valid.filter fun i =>
      !(isDone i) &&
        (match i.dueDate with
         | some dd => decide (dd ≤ futureEnd)
         | none => false))
    risks := sortCmp cmpKey (valid.filter fun i => isStoryV0 i && !(isDone i))
    milestones := milestones
    upcomingMilestones := milestones.filter fun i =>
      match i.dueDate with
      | some dd => decide (dd ≤ futureEnd)
      | none => false }

/-- The three report periods accepted by `generate_status_report`. -/
inductive ReportPeriod where
  | weekly
  | biweekly
  | custom
deriving DecidableEq

/-- Date-window resolution of `generate_status_report`: custom requires
both dates and takes them verbatim; biweekly is `now ± 14` days; anything
else (weekly) is `now ± 7` days. -/
def resolveWindow (period : ReportPeriod) (startArg endArg : Option Int)
    (now : Int) : Except String (Int × Int) :=
  match period with
  | .custom =>
    match startArg, endArg with
    | some s, some e => .ok (s, e)
    | _, _ => .error "Custom period requires startDate and endDate"
  | .biweekly => .ok (addDays now (-14), addDays now 14)
  | .weekly => .ok (addDays now (-7), addDays now 7)

/-- Report-data portion of the `generate_status_report` tool: resolve the
window, then categorize the fetched issues; the issue fetch and the PPTX
rendering around it are not modelled. -/
def genStatusReport (period : ReportPeriod) (startArg endArg : Option Int)
    (now : Int) (issues : List IssueRecord) : Except String Buckets :=
  match resolveWindow period startArg endArg now with
  | .error m => .error m
  | .ok (s, e) => .ok (categorizeIssues issues s e now)

/-- Two elements the comparator ties in both directions, i.e. members of
one equivalence class of a consistent comparator. -/
def cmpTied (cmp : α → α → Int) (x : α) : α → Bool :=
  fun y => (cmp y x == 0) && (cmp x y == 0)

/-- The ECMAScript contract of `Array.prototype.sort(cmp)` (ES2019 and
later): the output is a permutation of the input, sorted for `cmp`, and
stable — within each comparator tie class the input order is kept. -/
def IsJsSortOf (cmp : α → α → Int) (l out : List α) : Prop :=
  out.Perm l ∧
  List.Pairwise (fun a b => cmp a b ≤ 0) out ∧
  ∀ x ∈ l, out.filter (cmpTied cmp x) = l.filter (cmpTied cmp x)

theorem filter_erase_of_pos [DecidableEq α] (P : α → Bool) (a : α)
    (h : P a = true) :
    ∀ l : List α, (l.erase a).filter P = (l.filter P).erase a := by
  intro l
  induction l with
  | nil => simp
  | cons b bs ih =>
    by_cases hb : b = a
    · subst hb
      simp [List.erase_cons_head, List.filter_cons, h]
    · have hba : ¬ (b == a) = true := by simpa using hb
      rw [List.erase_cons_tail hba]
      by_cases hPb : P b = true
      · simp only [List.filter_cons, hPb, if_true, List.erase_cons_tail hba, ih]
      · have hPb' : P b = false := by simpa using hPb
        simp only [List.filter_cons, hPb', Bool.false_eq_true, if_false, ih]

theorem filter_erase_of_neg [DecidableEq α] (P : α → Bool) (a : α)
    (h : P a = false) :
    ∀ l : List α, (l.erase a).filter P = l.filter P := by
  intro l
  induction l with
  | nil => simp
  | cons b bs ih =>
    by_cases hb : b = a
    · subst hb
      simp [List.erase_cons_head, List.filter_cons, h]
    · have hba : ¬ (b == a) = true := by simpa using hb
      rw [List.erase_cons_tail hba]
      by_cases hPb : P b = true
      · simp only [List.filter_cons, hPb, if_true, ih]
      · have hPb' : P b = false := by simpa using hPb
        simp only [List.filter_cons, hPb', Bool.false_eq_true, if_false, ih]

/-- A consistent comparator admits at most one sorted stable permutation:
the output of a conforming `Array.prototype.sort` is uniquely determined
by the input.  Consistency is reflexivity of ties plus antisymmetry. -/
theorem jsSortOf_unique [DecidableEq α] (cmp : α → α → Int)
    (hrefl : ∀ a, cmp a a = 0)
    (hcons : ∀ a b, cmp a b ≤ 0 → cmp b a ≤ 0 → cmp a b = 0) :
    ∀ (out₁ : List α) (l out₂ : List α),
      IsJsSortOf cmp l out₁ → IsJsSortOf cmp l out₂ → out₁ = out₂
  | [], l, out₂, h₁, h₂ => by
    have hl : l = [] := (h₁.1.symm).eq_nil
    subst hl
    exact (h₂.1.eq_nil).symm
  | a₁ :: t₁, l, out₂, h₁, h₂ => by
    cases out₂ with
    | nil =>
      have hl : l = [] := (h₂.1.symm).eq_nil
      subst hl
      exact absurd h₁.1.eq_nil (by simp)
    | cons a₂ t₂ =>
      have ha₁l : a₁ ∈ l := h₁.1.mem_iff.mp (List.mem_cons_self a₁ t₁)
      have ha₂l : a₂ ∈ l := h₂.1.mem_iff.mp (List.mem_cons_self a₂ t₂)
      have ha₂o₁ : a₂ ∈ a₁ :: t₁ := h₁.1.mem_iff.mpr ha₂l
      have ha₁o₂ : a₁ ∈ a₂ :: t₂ := h₂.1.mem_iff.mpr ha₁l
      have hc12 : cmp a₁ a₂ ≤ 0 := by
        rcases List.mem_cons.mp ha₂o₁ with he | ht
        · rw [he]
          exact le_of_eq (hrefl a₁)
        · exact List.rel_of_pairwise_cons h₁.2.1 ht
      have hc21 : cmp a₂ a₁ ≤ 0 := by
        rcases List.mem_cons.mp ha₁o₂ with he | ht
        · rw [he]
          exact le_of_eq (hrefl a₂)
        · exact List.rel_of_pairwise_cons h₂.2.1 ht
      have h12z : cmp a₁ a₂ = 0 := hcons a₁ a₂ hc12 hc21
      have h21z : cmp a₂ a₁ = 0 := hcons a₂ a₁ hc21 hc12
      have hP₁ : cmpTied cmp a₁ a₁ = true := by
        simp [cmpTied, hrefl a₁]
      have hP₂ : cmpTied cmp a₁ a₂ = true := by
        simp [cmpTied, h12z, h21z]
      have hfeq : (a₁ :: t₁).filter (cmpTied cmp a₁) =
          (a₂ :: t₂).filter (cmpTied cmp a₁) := by
        rw [h₁.2.2 a₁ ha₁l, h₂.2.2 a₁ ha₁l]
      have hhead : a₁ = a₂ := by
        simp only [List.filter_cons, hP₁, hP₂, if_true] at hfeq
        exact (List.cons.injEq _ _ _ _ ▸ hfeq).1
      subst hhead
      have htail₁ : IsJsSortOf cmp (l.erase a₁) t₁ := by
        refine ⟨?_, h₁.2.1.of_cons, ?_⟩
        · exact (List.cons_perm_iff_perm_erase.mp h₁.1).2
        · intro x hx
          have hxl : x ∈ l := List.mem_of_mem_erase hx
          have hfx := h₁.2.2 x hxl
          by_cases hq : cmpTied cmp x a₁ = true
          · rw [filter_erase_of_pos (cmpTied cmp x) a₁ hq l, ← hfx]
            simp [List.filter_cons, hq]
          · have hq' : cmpTied cmp x a₁ = false := by simpa using hq
            rw [filter_erase_of_neg (cmpTied cmp x) a₁ hq' l, ← hfx]
            simp [List.filter_cons, hq']
      have htail₂ : IsJsSortOf cmp (l.erase a₁) t₂ := by
        refine ⟨?_, h₂.2.1.of_cons, ?_⟩
        · exact (List.cons_perm_iff_perm_erase.mp h₂.1).2
        · intro x hx
          have hxl : x ∈ l := List.mem_of_mem_erase hx
          have hfx := h₂.2.2 x hxl
          by_cases hq : cmpTied cmp x a₁ = true
          · rw [filter_erase_of_pos (cmpTied cmp x) a₁ hq l, ← hfx]
            simp [List.filter_cons, hq]
          · have hq' : cmpTied cmp x a₁ = false := by simpa using hq
            rw [filter_erase_of_neg (cmpTied cmp x) a₁ hq' l, ← hfx]
            simp [List.filter_cons, hq']
      have := jsSortOf_unique cmp hrefl hcons t₁ (l.erase a₁) t₂ htail₁ htail₂
      rw [this]

theorem cmpKey_refl (a : IssueRecord) : cmpKey a a = 0 :=
  strCmp_refl a.key

theorem cmpKey_consistent (a b : IssueRecord) (h₁ : cmpKey a b ≤ 0)
    (h₂ : cmpKey b a ≤ 0) : cmpKey a b = 0 :=
  strCmp_antisymm a.key b.key h₁ h₂

theorem cmpDueKey_refl (a : IssueRecord) : cmpDueKey a a = 0 := by
  unfold cmpDueKey
  cases ha : a.dueDate
  · simp [strCmp_refl]
  · simp

theorem cmpDueKey_consistent (a b : IssueRecord) (h₁ : cmpDueKey a b ≤ 0)
    (h₂ : cmpDueKey b a ≤ 0) : cmpDueKey a b = 0 := by
  unfold cmpDueKey at h₁ h₂ ⊢
  cases ha : a.dueDate <;> cases hb : b.dueDate <;>
    simp only [ha, hb] at h₁ h₂ ⊢
  · exact strCmp_antisymm _ _ h₁ h₂
  · exact strCmp_antisymm _ _ h₁ h₂
  · exact strCmp_antisymm _ _ h₁ h₂
  · omega

/-- A sort routine conforms to the ECMAScript sort contract on the four
sorted pools of one `categorizeIssues` run. -/
def SortConforms
    (f : (IssueRecord → IssueRecord → Int) → List IssueRecord → List IssueRecord)
    (issues : List IssueRecord) (startDate endDate now : Int) : Prop :=
  IsJsSortOf cmpKey (accPool issues startDate now)
    (f cmpKey (accPool issues startDate now)) ∧
  IsJsSortOf cmpDueKey (prioPool issues endDate)
    (f cmpDueKey (prioPool issues endDate)) ∧
  IsJsSortOf cmpKey (riskPool issues) (f cmpKey (riskPool issues)) ∧
  IsJsSortOf cmpDueKey (milePool issues) (f cmpDueKey (milePool issues))

theorem mem_categorize_acc (issues : List IssueRecord) (s e now : Int)
    (i : IssueRecord) :
    i ∈ (categorizeIssues issues s e now).accomplishments ↔
      i ∈ issues ∧ i.statusCategory = "done" ∧
        ∃ r, i.resolutionDate = some r ∧ s ≤ r ∧ r ≤ now := by
  simp only [categorizeIssues, categorizeIssuesWith, mem_sortCmp, accPool,
    List.mem_filter]
  cases h : i.resolutionDate with
  | none => simp [isDone, h]
  | some r =>
    simp only [isDone, h, Bool.and_eq_true, beq_iff_eq, decide_eq_true_eq,
      Option.some.injEq]
    constructor
    · rintro ⟨hin, hd, h₁, h₂⟩
      exact ⟨hin, hd, r, rfl, h₁, h₂⟩
    · rintro ⟨hin, hd, r', hr', h₁, h₂⟩
      cases hr'
      exact ⟨hin, hd, h₁, h₂⟩

theorem mem_categorize_prio (issues : List IssueRecord) (s e now : Int)
    (i : IssueRecord) :
    i ∈ (categorizeIssues issues s e now).priorities ↔
      i ∈ issues ∧ i.statusCategory ≠ "done" ∧
        ∃ dd, i.dueDate = some dd ∧ dd ≤ e := by
  simp only [categorizeIssues, categorizeIssuesWith, mem_sortCmp, prioPool,
    List.mem_filter]
  cases h : i.dueDate with
  | none => simp [isDone, h]
  | some dd =>
    simp only [isDone, h, Bool.and_eq_true, Bool.not_eq_true', beq_eq_false_iff_ne,
      decide_eq_true_eq, Option.some.injEq]
    constructor
    · rintro ⟨hin, hd, h₁⟩
      exact ⟨hin, hd, dd, rfl, h₁⟩
    · rintro ⟨hin, hd, dd', hdd', h₁⟩
      cases hdd'
      exact ⟨hin, hd, h₁⟩

theorem mem_categorize_risks (issues : List IssueRecord) (s e now : Int)
    (i : IssueRecord) :
    i ∈ (categorizeIssues issues s e now).risks ↔
      i ∈ issues ∧ (i.issueType = "Story" ∨ i.issueType = "Task") ∧
        i.statusCategory ≠ "done" ∧
        (i.priority = "Highest" ∨ i.priority = "High" ∨ i.dueDate = none) := by
  simp only [categorizeIssues, categorizeIssuesWith, mem_sortCmp, riskPool,
    List.mem_filter, isStory, isDone, Bool.and_eq_true, Bool.or_eq_true,
    Bool.not_eq_true', beq_eq_false_iff_ne, beq_iff_eq, Option.isNone_iff_eq_none]
  tauto

theorem mem_categorize_mile (issues : List IssueRecord) (s e now : Int)
    (i : IssueRecord) :
    i ∈ (categorizeIssues issues s e now).milestones ↔
      i ∈ issues ∧
        (i.issueType = "Epic" ∨ i.issueType = "Milestone" ∨ i.issueType = "Story") := by
  simp only [categorizeIssues, categorizeIssuesWith, mem_sortCmp, milePool,
    List.mem_filter, isMilestone, Bool.or_eq_true, beq_iff_eq, or_assoc]

theorem mem_categorize_upc (issues : List IssueRecord) (s e now : Int)
    (i : IssueRecord) :
    i ∈ (categorizeIssues issues s e now).upcomingMilestones ↔
      i ∈ (categorizeIssues issues s e now).milestones ∧
        ∃ dd, i.dueDate = some dd ∧ now ≤ dd ∧ dd ≤ e := by
  simp only [categorizeIssues, categorizeIssuesWith, List.mem_filter]
  cases h : i.dueDate with
  | none => simp [upcomingPred, h]
  | some dd =>
    simp only [upcomingPred, h, Bool.and_eq_true, decide_eq_true_eq,
      Option.some.injEq]
    constructor
    · rintro ⟨hm, h₁, h₂⟩
      exact ⟨hm, dd, rfl, h₁, h₂⟩
    · rintro ⟨hm, dd', hdd', h₁, h₂⟩
      cases hdd'
      exact ⟨hm, h₁, h₂⟩

theorem buildReport_subset_valid (issues : List IssueRecord) (period : String)
    (now : Int) (i : IssueRecord) :
    (i ∈ (buildReport issues period now).accomplishments → i ∈ validIssues issues) ∧
    (i ∈ (buildReport issues period now).priorities → i ∈ validIssues issues) ∧
    (i ∈ (buildReport issues period now).risks → i ∈ validIssues issues) ∧
    (i ∈ (buildReport issues period now).milestones → i ∈ validIssues issues) ∧
    (i ∈ (buildReport issues period now).upcomingMilestones → i ∈ validIssues issues) := by
  simp only [buildReport, mem_sortCmp, List.mem_filter]
  exact ⟨fun h => h.1, fun h => h.1, fun h => h.1, fun h => h.1, fun h => h.1.1⟩

theorem not_mem_validIssues_of_done_no_resolution (issues : List IssueRecord)
    (i : IssueRecord) (hdone : i.statusCategory = "done")
    (hres : i.resolutionDate = none) : i ∉ validIssues issues := by
  intro hmem
  have := (List.mem_filter.mp hmem).2
  simp [isDone, hdone, hres] at this

theorem mem_validIssues_of_undone (issues : List IssueRecord) (i : IssueRecord)
    (hin : i ∈ issues) (hnd : i.statusCategory ≠ "done")
    (hdesc : i.description ≠ "") : i ∈ validIssues issues := by
  refine List.mem_filter.mpr ⟨hin, ?_⟩
  simp [isDone, hnd, hdesc]

/-- Zero-padded two-digit rendering of a date component. -/
def pad2 (n : Int) : String :=
  if n < 10 then "0" ++ toString n else toString n

/-- Proleptic Gregorian civil date (year, month, day) from a count of days
since 1970-01-01, the arithmetic behind `Date.prototype.toISOString`. -/
def civilFromDays (days : Int) : Int × Int × Int :=
  let z := days + 719468
  let era := Int.fdiv z 146097
  let doe := z - era * 146097
  let yoe := Int.fdiv (doe - Int.fdiv doe 1460 + Int.fdiv doe 36524 - Int.fdiv doe 146096) 365
  let y := yoe + era * 400
  let doy := doe - (365 * yoe + Int.fdiv yoe 4 - Int.fdiv yoe 100)
  let mp := Int.fdiv (5 * doy + 2) 153
  let d := doy - Int.fdiv (153 * mp + 2) 5 + 1
  let m := mp + (if mp < 10 then 3 else -9)
  (y + (if m ≤ 2 then 1 else 0), m, d)

/-- Source: `formatDateISO(d) = d ? d.toISOString().split("T")[0] : "N/A"` —
the calendar date part of the timestamp, or the `N/A` sentinel. -/
def formatDateISO (d : Option Int) : String :=
  match d with
  | none => "N/A"
  | some t =>
    let c := civilFromDays (Int.fdiv t 86400000)
    toString c.1 ++ "-" ++ pad2 c.2.1 ++ "-" ++ pad2 c.2.2

/-- Inline node of the Atlassian document format as the server reads it:
a type tag and, for text runs, the text. -/
structure AdfInline where
  type : String
  text : String
deriving DecidableEq

/-- Block node of the Atlassian document format: a type tag and optional
inline content. -/
structure AdfBlock where
  type : String
  content : Option (List AdfInline)
deriving DecidableEq

/-- Root of the Atlassian document format value of a description field;
`content` is `none` when absent or not an array. -/
structure AdfDoc where
  content : Option (List AdfBlock)
deriving DecidableEq

/-- Source: `extractDescription(adf)` — concatenate the text runs of the
paragraph blocks, skip every other node kind, and trim. -/
def extractDescription (adf : Option AdfDoc) : String :=
  match adf with
  | none => ""
  | some doc =>
    match doc.content with
    | none => ""
    | some blocks =>
      (String.join (blocks.map fun b =>
        if b.type == "paragraph" then
          match b.content with
          | some cs =>
            String.join (cs.map fun c => if c.type == "text" then c.text else "")
          | none => ""
        else "")).trim

/-- Raw Jira fields of one search result as read by `fetchJiraIssues`;
every field may be absent. -/
structure RawFields where
  summary : Option String
  description : Option AdfDoc
  assigneeDisplayName : Option String
  statusName : Option String
  statusCategoryKey : Option String
  issuetypeName : Option String
  priorityName : Option String
  resolutiondate : Option Int
  duedate : Option Int
deriving DecidableEq

/-- Normalization step of `fetchJiraIssues`: defaults for every missing
optional field, in particular the `Unassigned` owner sentinel. -/
def normalizeIssue (key : String) (f : RawFields) : IssueRecord :=
  { key := key
    summary := f.summary.getD ""
    description :=
      let d := extractDescription f.description
      if d == "" then f.summary.getD "" else d
    assignee := f.assigneeDisplayName.getD "Unassigned"
    status := f.statusName.getD "Unknown"
    statusCategory := f.statusCategoryKey.getD ""
    issueType := f.issuetypeName.getD "Task"
    priority := f.priorityName.getD "Medium"
    resolutionDate := f.resolutiondate
    dueDate := f.duedate }

/-- Text cells of one Jira-sourced row of the risk table of the PPTX
report (row number, truncated action item, owner, target date, status);
the styling options on the cells are not modelled. -/
structure RiskRowCells where
  num : String
  actionItem : String
  owner : String
  targetDate : String
  status : String
deriving DecidableEq

/-- Row assembly for a Jira risk in `generateTavantPPTX`: truncate the
description at 60 characters with an ellipsis, take the owner verbatim,
render the due date with `formatDateISO`. -/
def riskRowCells (idx : Nat) (i : IssueRecord) : RiskRowCells :=
  { num := toString idx
    actionItem :=
      i.description.take 60 ++ (if 60 < i.description.length then "..." else "")
    owner := i.assignee
    targetDate := formatDateISO i.dueDate
    status := i.status }

/-- One row of the uploaded risk sheet as `sheet_to_json` returns it:
an association list of column name to cell text. -/
def RiskRow : Type := List (String × String)

instance : DecidableEq RiskRow := by
  unfold RiskRow
  infer_instance

/-- The process-wide risk table: `riskData` in the server. -/
structure RiskData where
  lastUpdated : Option String
  filename : Option String
  risks : List RiskRow
  headers : List String

/-- Initial value of the store, also the value the DELETE handler resets
to: every field null or empty. -/
def emptyRiskData : RiskData :=
  { lastUpdated := none, filename := none, risks := [], headers := [] }

/-- Outcome of `parseExcel`: either the parsed sheet or a failure; the
XLSX library internals are external to the modelled server code. -/
inductive ParseResult where
  | ok (filename : String) (headers : List String) (rows : List RiskRow)
  | err (msg : String)

/-- Response of the risk upload handlers. -/
inductive UploadResult where
  | badRequest (msg : String)
  | parseError (msg : String)
  | uploaded (totalRisks : Nat) (headers : List String)

/-- Handler of `POST /api/upload-risk` (and of the `upload_risk_file`
tool): reject a missing body field, keep the store untouched on a parse
failure, otherwise replace the whole store with the parsed sheet. -/
def uploadRisk (st : RiskData) (nowIso : String) (base64Data : Option String)
    (parsed : ParseResult) : RiskData × UploadResult :=
  if (base64Data.getD "") == "" then (st, .badRequest "base64Data required")
  else
    match parsed with
    | .err m => (st, .parseError m)
    | .ok fn hs rows =>
      ({ lastUpdated := some nowIso, filename := some fn, risks := rows,
         headers := hs }, .uploaded rows.length hs)

/-- Handler of `DELETE /api/risks`: reset the store to the empty table. -/
def deleteRisks (_st : RiskData) : RiskData :=
  { lastUpdated := none, filename := none, risks := [], headers := [] }

/-- Sample not-done Task due at 50, key B-2. -/
def issueB2 : IssueRecord :=
  ⟨"B-2", "", "x", "A", "Open", "new", "Task", "Medium", none, some 50⟩

/-- Sample not-done Task due at 50, key B-1. -/
def issueB1 : IssueRecord :=
  ⟨"B-1", "", "y", "A", "Open", "new", "Task", "Medium", none, some 50⟩

/-- Sample Epic with no due date. -/
def sampleEpic : IssueRecord :=
  ⟨"M-1", "", "m", "A", "Open", "new", "Epic", "Medium", none, none⟩

/-- Sample Epic due at 10. -/
def sampleUpcoming : IssueRecord :=
  ⟨"M-2", "", "m", "A", "Open", "new", "Epic", "Medium", none, some 10⟩

/-- Sample done Story resolved at 10, due at 30. -/
def sampleDone : IssueRecord :=
  ⟨"D-1", "", "d", "A", "Done", "done", "Story", "Medium", some 10, some 30⟩

/-- Sample not-done high-priority Task due at 20. -/
def sampleTask : IssueRecord :=
  ⟨"T-1", "", "t", "A", "Open", "new", "Task", "High", none, some 20⟩

/-- Sample done Task with no resolution date and a non-empty description. -/
def sampleDoneNoRes : IssueRecord :=
  ⟨"D-2", "", "d", "A", "Done", "done", "Task", "Medium", none, some 20⟩

/-- Sample record whose statusCategory is outside the enumerated values. -/
def sampleGarbage : IssueRecord :=
  ⟨"G-1", "", "g", "A", "Weird", "garbage", "Epic", "High", none, some 20⟩

/-- Sample raw Jira fields with every optional field absent. -/
def sampleRaw : RawFields :=
  ⟨none, none, none, none, none, none, none, none, none⟩

/-- Sample parsed risk sheet row. -/
def sampleRow : RiskRow :=
  [("Risk", "High")]

/-- C1: an issue is placed in the accomplishments bucket of
`categorizeIssues` if and only if it is one of the input issues, its
statusCategory equals done, and its resolutionDate is present and falls
within the window start to the reference instant `now`; in particular an
issue whose statusCategory is not done never appears there. -/
theorem C1_accomplishments_iff (issues : List IssueRecord) (s e now : Int)
    (i : IssueRecord) :
    i ∈ (categorizeIssues issues s e now).accomplishments ↔
      i ∈ issues ∧ i.statusCategory = "done" ∧
        ∃ r, i.resolutionDate = some r ∧ s ≤ r ∧ r ≤ now :=
  mem_categorize_acc issues s e now i

/-- C1 witness: a concrete done issue resolved inside the window is in
the bucket, via the characterization. -/
theorem C1_accomplishments_iff_witness :
    sampleDone ∈ (categorizeIssues [sampleDone] (-100) 100 50).accomplishments :=
  (C1_accomplishments_iff [sampleDone] (-100) 100 50 sampleDone).mpr
    ⟨by decide, by decide, 10, by decide, by decide, by decide⟩

/-- C2: every issue in the upcomingMilestones bucket of
`categorizeIssues` is also in the milestones bucket and carries a due
date inside the interval from `now` to the window end. -/
theorem C2_upcoming_subset (issues : List IssueRecord) (s e now : Int)
    (i : IssueRecord)
    (h : i ∈ (categorizeIssues issues s e now).upcomingMilestones) :
    i ∈ (categorizeIssues issues s e now).milestones ∧
      ∃ dd, i.dueDate = some dd ∧ now ≤ dd ∧ dd ≤ e :=
  (mem_categorize_upc issues s e now i).mp h

/-- C2 witness at a concrete epic due inside the look-ahead window. -/
theorem C2_upcoming_subset_witness :
    sampleUpcoming ∈ (categorizeIssues [sampleUpcoming] (-100) 100 0).milestones ∧
      ∃ dd, sampleUpcoming.dueDate = some dd ∧ 0 ≤ dd ∧ dd ≤ 100 :=
  C2_upcoming_subset [sampleUpcoming] (-100) 100 0 sampleUpcoming (by decide)

/-- C3 is refuted as stated: a custom period whose start exceeds its end
is not rejected — `generate_status_report` succeeds and produces buckets
(the epic is categorized into milestones). -/
theorem C3_counterexample :
    genStatusReport ReportPeriod.custom (some 1000) (some 0) 0 [sampleEpic] =
      Except.ok (categorizeIssues [sampleEpic] 1000 0 0) ∧
    (categorizeIssues [sampleEpic] 1000 0 0).milestones = [sampleEpic] :=
  ⟨rfl, by decide⟩

/-- C3 (amended): a custom period with either date missing fails with the
validation error and produces no buckets; a custom period with both dates
present always succeeds — in particular `end < start` is not validated
and the build proceeds over the inverted window. -/
theorem C3_custom_validation (sa ea : Option Int) (now : Int)
    (issues : List IssueRecord) :
    (sa = none ∨ ea = none →
      genStatusReport ReportPeriod.custom sa ea now issues =
        Except.error "Custom period requires startDate and endDate") ∧
    (∀ s e, sa = some s → ea = some e →
      genStatusReport ReportPeriod.custom sa ea now issues =
        Except.ok (categorizeIssues issues s e now)) := by
  constructor
  · rintro (rfl | rfl)
    · cases ea <;> rfl
    · cases sa <;> rfl
  · rintro s e rfl rfl
    rfl

/-- C3 witness: a missing start date is rejected with the validation
error. -/
theorem C3_custom_validation_witness :
    genStatusReport ReportPeriod.custom none (some 5) 3 [] =
      Except.error "Custom period requires startDate and endDate" :=
  (C3_custom_validation none (some 5) 3 []).1 (Or.inl rfl)

/-- C4: the date window is `now ± 7` days for the weekly period and
`now ± 14` days for the biweekly period, so the windows span exactly 14
and 28 days. -/
theorem C4_window_spans (now : Int) (sa ea : Option Int) :
    resolveWindow ReportPeriod.weekly sa ea now =
      Except.ok (now - 7 * 86400000, now + 7 * 86400000) ∧
    (now + 7 * 86400000) - (now - 7 * 86400000) = 14 * 86400000 ∧
    resolveWindow ReportPeriod.biweekly sa ea now =
      Except.ok (now - 14 * 86400000, now + 14 * 86400000) ∧
    (now + 14 * 86400000) - (now - 14 * 86400000) = 28 * 86400000 := by
  have h7 : addDays now (-7) = now - 7 * 86400000 := by
    unfold addDays
    ring
  have h7' : addDays now 7 = now + 7 * 86400000 := by
    unfold addDays
    ring
  have h14 : addDays now (-14) = now - 14 * 86400000 := by
    unfold addDays
    ring
  have h14' : addDays now 14 = now + 14 * 86400000 := by
    unfold addDays
    ring
  refine ⟨?_, by ring, ?_, by ring⟩
  · show Except.ok (addDays now (-7), addDays now 7) = _
    rw [h7, h7']
  · show Except.ok (addDays now (-14), addDays now 14) = _
    rw [h14, h14']

/-- C4 witness at the concrete reference instant zero. -/
theorem C4_window_spans_witness :
    resolveWindow ReportPeriod.weekly none none 0 =
      Except.ok (0 - 7 * 86400000, 0 + 7 * 86400000) :=
  (C4_window_spans 0 none none).1

/-- C5: the inclusion filter of the variant `buildReport` drops a done
issue without resolution date even when its description is non-empty —
such an issue appears in none of the five buckets — while an undone issue
with a non-empty description is eligible regardless of its dates. -/
theorem C5_inclusion_filter (issues : List IssueRecord) (period : String)
    (now : Int) (i : IssueRecord) :
    (i.statusCategory = "done" → i.resolutionDate = none → i.description ≠ "" →
      i ∉ (buildReport issues period now).accomplishments ∧
      i ∉ (buildReport issues period now).priorities ∧
      i ∉ (buildReport issues period now).risks ∧
      i ∉ (buildReport issues period now).milestones ∧
      i ∉ (buildReport issues period now).upcomingMilestones) ∧
    (i ∈ issues → i.statusCategory ≠ "done" → i.description ≠ "" →
      i ∈ validIssues issues) := by
  constructor
  · intro hd hr _
    have hnv := not_mem_validIssues_of_done_no_resolution issues i hd hr
    have hsub := buildReport_subset_valid issues period now i
    exact ⟨fun h => hnv (hsub.1 h), fun h => hnv (hsub.2.1 h),
      fun h => hnv (hsub.2.2.1 h), fun h => hnv (hsub.2.2.2.1 h),
      fun h => hnv (hsub.2.2.2.2 h)⟩
  · exact mem_validIssues_of_undone issues i

/-- C5 witness: the concrete done-without-resolution record is excluded
from every bucket and the concrete undone record is eligible. -/
theorem C5_inclusion_filter_witness :
    sampleDoneNoRes ∉ (buildReport [sampleDoneNoRes, sampleTask] "weekly" 0).accomplishments ∧
    sampleTask ∈ validIssues [sampleDoneNoRes, sampleTask] :=
  ⟨((C5_inclusion_filter [sampleDoneNoRes, sampleTask] "weekly" 0
      sampleDoneNoRes).1 rfl rfl (by decide)).1,
   (C5_inclusion_filter [sampleDoneNoRes, sampleTask] "weekly" 0 sampleTask).2
     (by decide) (by decide) (by decide)⟩

/-- C6 is refuted as stated: two priorities issues with identical due
dates and keys B-2 then B-1 come out in input order B-2, B-1 — the key
tie-break the claim asserts does not happen between two dated issues. -/
theorem C6_counterexample :
    (categorizeIssues [issueB2, issueB1] (-100) 100 0).priorities.map
        IssueRecord.key = ["B-2", "B-1"] ∧
    (["B-2", "B-1"] : List String) ≠ ["B-1", "B-2"] := by
  constructor
  · decide
  · decide

/-- C6 (amended): the priorities bucket is sorted by due date ascending,
and the sort is stable — issues with the same due date keep their input
order (the key comparison in the comparator is reachable only when a due
date is missing, which the priorities filter rules out). -/
theorem C6_priorities_sorted_stable (issues : List IssueRecord) (s e now : Int) :
    List.Pairwise
      (fun a b => ∀ x y, a.dueDate = some x → b.dueDate = some y → x ≤ y)
      (categorizeIssues issues s e now).priorities ∧
    ∀ d, (categorizeIssues issues s e now).priorities.filter
        (fun i => i.dueDate == some d) =
      (prioPool issues e).filter (fun i => i.dueDate == some d) := by
  have hsome : ∀ i ∈ prioPool issues e, ∃ dd, i.dueDate = some dd := by
    intro i hi
    have h2 := (List.mem_filter.mp hi).2
    cases h : i.dueDate with
    | none =>
      rw [h] at h2
      simp at h2
    | some dd => exact ⟨dd, rfl⟩
  constructor
  · have hp := pairwise_sortCmp cmpDueKey (prioPool issues e)
      (fun a ha b hb => by
        obtain ⟨da, hda⟩ := hsome a ha
        obtain ⟨db, hdb⟩ := hsome b hb
        simp only [cmpDueKey, hda, hdb]
        omega)
      (fun a ha b hb c hc hab hbc => by
        obtain ⟨da, hda⟩ := hsome a ha
        obtain ⟨db, hdb⟩ := hsome b hb
        obtain ⟨dc, hdc⟩ := hsome c hc
        simp only [cmpDueKey, hda, hdb] at hab
        simp only [cmpDueKey, hdb, hdc] at hbc
        simp only [cmpDueKey, hda, hdc]
        omega)
    simp only [categorizeIssues, categorizeIssuesWith]
    refine hp.imp ?_
    intro a b hab x y hx hy
    simp only [cmpDueKey, hx, hy] at hab
    omega
  · intro d
    simp only [categorizeIssues, categorizeIssuesWith]
    refine sortCmp_filter_eq cmpDueKey _ (prioPool issues e) ?_
    intro x _ y _ hx hy
    have hx' : x.dueDate = some d := by simpa using hx
    have hy' : y.dueDate = some d := by simpa using hy
    simp only [cmpDueKey, hx', hy']
    omega

/-- C6 witness: the tie-class filter identity at the concrete tied
input. -/
theorem C6_priorities_sorted_stable_witness :
    (categorizeIssues [issueB2, issueB1] (-100) 100 0).priorities.filter
        (fun i => i.dueDate == some 50) =
      (prioPool [issueB2, issueB1] 100).filter (fun i => i.dueDate == some 50) :=
  (C6_priorities_sorted_stable [issueB2, issueB1] (-100) 100 0).2 50

/-- C7: the categorization pipeline is deterministic — any two runs on the
same issue list, window and reference instant produce identical bucket
contents and ordering, even when the two runs use different sort routines,
as long as each conforms to the ECMAScript stable-sort contract. -/
theorem C7_deterministic (issues : List IssueRecord) (s e now : Int)
    (f g : (IssueRecord → IssueRecord → Int) → List IssueRecord → List IssueRecord)
    (hf : SortConforms f issues s e now) (hg : SortConforms g issues s e now) :
    categorizeIssuesWith f issues s e now = categorizeIssuesWith g issues s e now := by
  have hacc := jsSortOf_unique cmpKey cmpKey_refl cmpKey_consistent
    (f cmpKey (accPool issues s now)) (accPool issues s now)
    (g cmpKey (accPool issues s now)) hf.1 hg.1
  have hpri := jsSortOf_unique cmpDueKey cmpDueKey_refl cmpDueKey_consistent
    (f cmpDueKey (prioPool issues e)) (prioPool issues e)
    (g cmpDueKey (prioPool issues e)) hf.2.1 hg.2.1
  have hrisk := jsSortOf_unique cmpKey cmpKey_refl cmpKey_consistent
    (f cmpKey (riskPool issues)) (riskPool issues)
    (g cmpKey (riskPool issues)) hf.2.2.1 hg.2.2.1
  have hmile := jsSortOf_unique cmpDueKey cmpDueKey_refl cmpDueKey_consistent
    (f cmpDueKey (milePool issues)) (milePool issues)
    (g cmpDueKey (milePool issues)) hf.2.2.2 hg.2.2.2
  simp only [categorizeIssuesWith]
  rw [hacc, hpri, hrisk, hmile]

/-- Alternative conforming sort routine used to witness determinism: sort
the reversed list. -/
def revSortImpl : (IssueRecord → IssueRecord → Int) → List IssueRecord → List IssueRecord :=
  fun cmp l => sortCmp cmp l.reverse

instance decidableIsJsSortOf [DecidableEq α] (cmp : α → α → Int)
    (l out : List α) : Decidable (IsJsSortOf cmp l out) := by
  unfold IsJsSortOf
  infer_instance

instance decidableSortConforms
    (f : (IssueRecord → IssueRecord → Int) → List IssueRecord → List IssueRecord)
    (issues : List IssueRecord) (startDate endDate now : Int) :
    Decidable (SortConforms f issues startDate endDate now) := by
  unfold SortConforms
  infer_instance

/-- C7 witness: two syntactically different conforming sorts give the
same buckets at a concrete input. -/
theorem C7_deterministic_witness :
    categorizeIssuesWith revSortImpl [sampleDone, sampleTask] (-100) 100 50 =
      categorizeIssuesWith sortCmp [sampleDone, sampleTask] (-100) 100 50 :=
  C7_deterministic [sampleDone, sampleTask] (-100) 100 50 revSortImpl sortCmp
    (by decide) (by decide)

/-- C8 is refuted as stated: a record bearing a statusCategory outside
the three enumerated values is not excluded from all buckets — the
concrete garbage-status Epic is categorized into milestones. -/
theorem C8_counterexample :
    sampleGarbage ∈ (categorizeIssues [sampleGarbage] (-100) 100 0).milestones ∧
    sampleGarbage.statusCategory ∉ (["new", "indeterminate", "done"] : List String) := by
  constructor
  · decide
  · decide

/-- C8 (amended): `categorizeIssues` performs no per-record validation —
a record whose statusCategory is outside the three enumerated values is
simply treated as not done: it never reaches accomplishments, but it is
still categorized into milestones and priorities by the ordinary
predicates rather than being rejected, and the build does not abort. -/
theorem C8_no_validation (issues : List IssueRecord) (s e now : Int)
    (i : IssueRecord) (_hnew : i.statusCategory ≠ "new")
    (_hind : i.statusCategory ≠ "indeterminate")
    (hdone : i.statusCategory ≠ "done") :
    i ∉ (categorizeIssues issues s e now).accomplishments ∧
    (i ∈ issues →
      ((i ∈ (categorizeIssues issues s e now).milestones ↔
        (i.issueType = "Epic" ∨ i.issueType = "Milestone" ∨ i.issueType = "Story")) ∧
       (i ∈ (categorizeIssues issues s e now).priorities ↔
        ∃ dd, i.dueDate = some dd ∧ dd ≤ e))) := by
  refine ⟨?_, ?_⟩
  · intro h
    exact hdone ((mem_categorize_acc issues s e now i).mp h).2.1
  · intro hin
    constructor
    · rw [mem_categorize_mile]
      simp [hin]
    · rw [mem_categorize_prio]
      simp [hin, hdone]

/-- C8 witness at the concrete garbage-status record. -/
theorem C8_no_validation_witness :
    sampleGarbage ∉ (categorizeIssues [sampleGarbage] (-100) 100 0).accomplishments ∧
    (sampleGarbage ∈ [sampleGarbage] →
      ((sampleGarbage ∈ (categorizeIssues [sampleGarbage] (-100) 100 0).milestones ↔
        (sampleGarbage.issueType = "Epic" ∨ sampleGarbage.issueType = "Milestone" ∨
          sampleGarbage.issueType = "Story")) ∧
       (sampleGarbage ∈ (categorizeIssues [sampleGarbage] (-100) 100 0).priorities ↔
        ∃ dd, sampleGarbage.dueDate = some dd ∧ dd ≤ 100))) :=
  C8_no_validation [sampleGarbage] (-100) 100 0 sampleGarbage
    (by decide) (by decide) (by decide)

/-- C9: the report assembler never fails on missing optional fields — an
absent assignee is normalized to the Unassigned sentinel, an absent due
date renders as the N/A sentinel, and the risk-row assembly is total. -/
theorem C9_assembler_sentinels (k : String) (f : RawFields) (idx : Nat)
    (i : IssueRecord) (hass : f.assigneeDisplayName = none)
    (hdue : i.dueDate = none) :
    (normalizeIssue k f).assignee = "Unassigned" ∧
    formatDateISO none = "N/A" ∧
    (riskRowCells idx i).targetDate = "N/A" ∧
    (riskRowCells idx i).owner = i.assignee ∧
    (riskRowCells idx i).status = i.status := by
  refine ⟨?_, rfl, ?_, rfl, rfl⟩
  · simp [normalizeIssue, hass]
  · simp [riskRowCells, formatDateISO, hdue]

/-- C9 witness: the sentinels at a concrete raw record with no assignee
and a concrete issue with no due date. -/
theorem C9_assembler_sentinels_witness :
    (normalizeIssue "K-1" sampleRaw).assignee = "Unassigned" ∧
    formatDateISO none = "N/A" ∧
    (riskRowCells 1 sampleEpic).targetDate = "N/A" ∧
    (riskRowCells 1 sampleEpic).owner = sampleEpic.assignee ∧
    (riskRowCells 1 sampleEpic).status = sampleEpic.status :=
  C9_assembler_sentinels "K-1" sampleRaw 1 sampleEpic rfl rfl

/-- C10: the risk store is replace-on-write and atomic on error — a
successful upload makes the stored table exactly the parsed rows,
independently of the previous store contents; a failed parse leaves the
store unchanged; the delete handler resets the store to the empty
table. -/
theorem C10_risk_store (st st' : RiskData) (nowIso : String) (b : String)
    (parsed : ParseResult) (fn : String) (hs : List String)
    (rows : List RiskRow) (m : String) (hb : b ≠ "") :
    (parsed = ParseResult.ok fn hs rows →
      (uploadRisk st nowIso (some b) parsed).1.risks = rows ∧
      (uploadRisk st nowIso (some b) parsed).1 =
        (uploadRisk st' nowIso (some b) parsed).1) ∧
    (parsed = ParseResult.err m →
      (uploadRisk st nowIso (some b) parsed).1 = st) ∧
    deleteRisks st = emptyRiskData := by
  refine ⟨?_, ?_, rfl⟩
  · rintro rfl
    simp [uploadRisk, hb]
  · rintro rfl
    simp [uploadRisk, hb]

/-- C10 witness at a concrete store, upload and failure message. -/
theorem C10_risk_store_witness :
    (ParseResult.ok "r.xlsx" ["Risk"] [sampleRow] =
        ParseResult.ok "r.xlsx" ["Risk"] [sampleRow] →
      (uploadRisk emptyRiskData "2024-01-01" (some "data")
          (ParseResult.ok "r.xlsx" ["Risk"] [sampleRow])).1.risks = [sampleRow] ∧
      (uploadRisk emptyRiskData "2024-01-01" (some "data")
          (ParseResult.ok "r.xlsx" ["Risk"] [sampleRow])).1 =
        (uploadRisk (deleteRisks emptyRiskData) "2024-01-01" (some "data")
          (ParseResult.ok "r.xlsx" ["Risk"] [sampleRow])).1) ∧
    (ParseResult.ok "r.xlsx" ["Risk"] [sampleRow] = ParseResult.err "bad zip" →
      (uploadRisk emptyRiskData "2024-01-01" (some "data")
          (ParseResult.ok "r.xlsx" ["Risk"] [sampleRow])).1 = emptyRiskData) ∧
    deleteRisks emptyRiskData = emptyRiskData :=
  C10_risk_store emptyRiskData (deleteRisks emptyRiskData) "2024-01-01" "data"
    (ParseResult.ok "r.xlsx" ["Risk"] [sampleRow]) "r.xlsx" ["Risk"] [sampleRow]
    "bad zip" (by decide)
